import Mathlib

/-!
Shallow embedding of the line-balancing engine of this repository
(src/app.py; src/line_balance_report.py duplicates the same engine).
Rows of the long-format allocation table become `Rec` values, the
pandas dataframe becomes a `List Rec`, and the per-student schedule
dict becomes a function `String → String → Option String`.
-/

open scoped List

namespace LineBalance

/-- Assignment record: one row of the long-format allocation table
(columns Code, Line, Course, Class).  `cls` is an `Option` because a
pandas Class cell can be null (the apply loop writes the picked section,
which is `None` when no section exists). -/
structure Rec where
  code : String
  line : String
  course : String
  cls : Option String
deriving DecidableEq, Repr

/-- One committed move record (columns StudentCode, Course, FromLine, ToLine). -/
structure MoveRec where
  studentCode : String
  course : String
  fromLine : String
  toLine : String
deriving DecidableEq, Repr

/-- A chain step `(course, src_line, dst_line)`. -/
abbrev Step := String × String × String

/-- Student schedule: student → line → course, `none` when the student has
no course on that line (a defaultdict of dicts in the source). -/
abbrev Sched := String → String → Option String

/-- Python's string order: lexicographic comparison of the character
sequences (code point by code point), reflexively closed. -/
def strle (a b : String) : Prop := a.data < b.data ∨ a = b

instance : DecidableRel strle := fun _ _ => inferInstanceAs (Decidable (_ ∨ _))

/-- Comparison of two identifiers by a numeric key (the `key=` argument of
`sorted` and the value column of `sort_values`). -/
def cntLe (cnt : String → Nat) (a b : String) : Prop := cnt a ≤ cnt b

instance (cnt : String → Nat) : DecidableRel (cntLe cnt) := fun _ _ => Nat.decLe _ _

instance (cnt : String → Nat) : IsTotal String (cntLe cnt) := ⟨fun _ _ => Nat.le_total _ _⟩

instance (cnt : String → Nat) : IsTrans String (cntLe cnt) := ⟨fun _ _ _ => Nat.le_trans⟩

/-- `sorted(xs.unique().tolist())`: the lexically sorted list of the
distinct values.  `dedup` keeps one copy of each value; the subsequent
sort makes the first-occurrence order of `unique` irrelevant.  Python's
`sorted` is a stable sort, and a stable sort's output is uniquely
determined by the (total) ordering and the input order, so it is
embedded as a stable insertion sort. -/
def sortedUnique (l : List String) : List String :=
  l.dedup.insertionSort strle

/-- `get_course_sections_on_line` (app.py:58): distinct non-null Class
codes for a course on a line, sorted lexically. -/
def get_course_sections_on_line (df : List Rec) (course line : String) : List String :=
  sortedUnique ((df.filter (fun r => decide (r.course = course ∧ r.line = line))).filterMap
    (fun r => r.cls))

/-- Headcount of one section: the `groupby("Class").size()` entry for
section `s` among the rows matching (course, line); 0 when absent
(`reindex(..., fill_value=0)`). -/
def section_count (df : List Rec) (course line s : String) : Nat :=
  (df.filter (fun r => decide (r.course = course ∧ r.line = line ∧ r.cls = some s))).length

/-- `pick_destination_section` (app.py:62): `None` when there is no
section; otherwise the head of the stable sort (`kind="mergesort"` in the
source, a stable sort) of the (lexically sorted) section list by
per-section headcount. -/
def pick_destination_section (df : List Rec) (course line : String) : Option String :=
  let sections := get_course_sections_on_line df course line
  if sections.isEmpty then none
  else (sections.insertionSort (cntLe (section_count df course line))).head?

/-- `build_student_schedule` (app.py:51): rows are folded in order, a
later row for the same (student, line) overwriting an earlier one. -/
def build_student_schedule (df : List Rec) : Sched :=
  df.foldl
    (fun sched r => fun s l => if s = r.code ∧ l = r.line then some r.course else sched s l)
    (fun _ _ => none)

/-- Headcount of a course on a line (the pivot cell of `counts_from_long`). -/
def line_count (df : List Rec) (course line : String) : Nat :=
  (df.filter (fun r => decide (r.course = course ∧ r.line = line))).length

/-- `build_offerings` (app.py:32): the lines carrying at least one record
of the course, in the lexically sorted order of the pivot columns
(`ct > 0` always holds for a pivot cell that is not NaN). -/
def offering_lines (df : List Rec) (course : String) : List String :=
  sortedUnique ((df.filter (fun r => decide (r.course = course))).map (fun r => r.line))

/-- The pivot row index: distinct courses in lexically sorted order. -/
def courses_of (df : List Rec) : List String :=
  sortedUnique (df.map (fun r => r.course))

/-- `plan_student_chain` (app.py:73).  The `for`/`return` loops over
offering lines become `find?`/`findSome?` over the same lists. -/
def plan_student_chain (student course fromLn toLn : String) (sched : Sched)
    (offerings : String → List String) (depth : Nat) : Option (List Step) :=
  match sched student toLn with
  | none => some [(course, fromLn, toLn)]
  | some b =>
    if depth = 0 then none
    else
      match (offerings b).find? (fun alt => decide (alt ≠ toLn ∧ sched student alt = none)) with
      | some alt => some [(b, toLn, alt), (course, fromLn, toLn)]
      | none =>
        if 1 < depth then
          (offerings b).findSome? (fun altLn =>
            if altLn = toLn then none
            else
              match sched student altLn with
              | none => none
              | some c2 =>
                ((offerings c2).find?
                    (fun alt2 => decide (sched student alt2 = none ∧ alt2 ≠ altLn))).map
                  (fun alt2 => [(c2, altLn, alt2), (b, toLn, altLn), (course, fromLn, toLn)]))
        else none

/-- One validation check of `apply_chain_section_aware` (app.py:102-109):
the student holds exactly `c` on `src`, holds nothing on `dst`, and a
destination section exists for `(c, dst)`. -/
def valid_step (df : List Rec) (sched : Sched) (student : String) : Step → Bool
  | (c, src, dst) =>
    decide (sched student src = some c) && decide (sched student dst = none) &&
      (pick_destination_section df c dst).isSome

/-- One application step of `apply_chain_section_aware` (app.py:111-117):
the section pick is recomputed against the already-updated record set,
the matching rows get the new Line and Class, and the schedule map pops
`src` and sets `dst`. -/
def apply_step (student : String) : List Rec × Sched → Step → List Rec × Sched
  | (df, sched), (c, src, dst) =>
    let dest := pick_destination_section df c dst
    let df2 := df.map (fun r =>
      if r.code = student ∧ r.course = c ∧ r.line = src then
        { r with line := dst, cls := dest } else r)
    let sched2 : Sched := fun s l =>
      if s = student then (if l = dst then some c else if l = src then none else sched s l)
      else sched s l
    (df2, sched2)

/-- `apply_chain_section_aware` (app.py:100): every step is validated
against the pre-chain snapshot before any mutation; `none` models the
source returning `False` with `long_df` and `sched` untouched (the
validation loop performs no writes and the function returns before the
apply loop). -/
def apply_chain_section_aware (df : List Rec) (sched : Sched) (student : String)
    (chain : List Step) : Option (List Rec × Sched) :=
  if chain.all (valid_step df sched student) then
    some (chain.foldl (apply_step student) (df, sched))
  else none

/-- Mutable state of the balancing loop of
`compute_multi_move_plan_constrained` (app.py:120). -/
structure LoopState where
  df : List Rec
  sched : Sched
  moves : List MoveRec
  movedSC : List (String × String)
  moveCounts : String → Nat

/-- `lines_sorted_asc` (app.py:143): offering lines stably sorted
ascending by current headcount (Python's `sorted` with a key is a stable
sort). -/
def lines_sorted_asc (offered : List String) (curr : String → Nat) : List String :=
  offered.insertionSort (cntLe curr)

/-- The per-line target (app.py:144-146): every offering line starts at
`base`; the first `remainder` lines of the stable ascending sort get
`base + 1`. -/
def target_for (offered : List String) (curr : String → Nat) (ln : String) : Nat :=
  let total := (offered.map curr).sum
  let n := offered.length
  let base := total / n
  let remainder := total % n
  if ln ∈ (lines_sorted_asc offered curr).take remainder then base + 1 else base

/-- The candidate-student body of the balancing loop (app.py:161-189):
budget check, dedup check, planning, chain dedup and budget checks,
then the atomic apply; `none` when this student is skipped. -/
def try_student (offerings : String → List String) (maxMoves : Nat) (st : LoopState)
    (course fromLn toLn student : String) : Option LoopState :=
  if maxMoves ≤ st.moveCounts student then none
  else if (student, course) ∈ st.movedSC then none
  else
    match plan_student_chain student course fromLn toLn st.sched offerings 2 with
    | none => none
    | some chain =>
      if chain.any (fun s => decide ((student, s.1) ∈ st.movedSC)) then none
      else if maxMoves < st.moveCounts student + chain.length then none
      else
        match apply_chain_section_aware st.df st.sched student chain with
        | none => none
        | some (df2, sched2) =>
          some { df := df2, sched := sched2,
                 moves := st.moves ++ chain.map (fun s => ⟨student, s.1, s.2.1, s.2.2⟩),
                 movedSC := st.movedSC ++ chain.map (fun s => (student, s.1)),
                 moveCounts := fun x =>
                   if x = student then st.moveCounts x + chain.length else st.moveCounts x }

/-- One full pass of the balancing loop (app.py:132-195): recompute the
pivot, scan courses in order, and commit the first executable chain
found over (deficit line, surplus line, candidate student); the nested
`break`s that unwind to the `while` after a commit make the pass exactly
a first-success search. -/
def pass_once (offerings : String → List String) (maxMoves : Nat) (st : LoopState) :
    Option LoopState :=
  (courses_of st.df).findSome? (fun course =>
    let offered := offering_lines st.df course
    if offered.length < 2 then none
    else
      let curr := fun ln => line_count st.df course ln
      let target := target_for offered curr
      let surplus := offered.filter (fun ln => decide (target ln < curr ln))
      let deficit := offered.filter (fun ln => decide (curr ln < target ln))
      if surplus.isEmpty || deficit.isEmpty then none
      else
        deficit.findSome? (fun toLn =>
          if curr toLn < target toLn then
            surplus.findSome? (fun fromLn =>
              if target fromLn < curr fromLn then
                ((st.df.filter (fun r => decide (r.course = course ∧ r.line = fromLn))).map
                    (fun r => r.code)).findSome?
                  (fun student => try_student offerings maxMoves st course fromLn toLn student)
              else none)
          else none))

/-- The `while improved and rounds < max_rounds` loop (app.py:129-131):
`fuel` is the number of rounds still allowed, the second component the
number of rounds executed so far; a pass that commits nothing still
counts as a round, exactly as `rounds += 1` precedes the pass body. -/
def loop_aux (offerings : String → List String) (maxMoves : Nat) :
    Nat → Nat → LoopState → LoopState × Nat
  | 0, rounds, st => (st, rounds)
  | fuel + 1, rounds, st =>
    match pass_once offerings maxMoves st with
    | none => (st, rounds + 1)
    | some st2 => loop_aux offerings maxMoves fuel (rounds + 1) st2

/-- `compute_multi_move_plan_constrained` (app.py:120): the schedule map
and the offerings index are built once from the input records, before
the loop. -/
def final_state (df : List Rec) (maxRounds maxMoves : Nat) : LoopState × Nat :=
  loop_aux (fun c => offering_lines df c) maxMoves maxRounds 0
    { df := df, sched := build_student_schedule df, moves := [], movedSC := [],
      moveCounts := fun _ => 0 }

/-- The pair `(moves, long_df)` returned by
`compute_multi_move_plan_constrained` (app.py:196). -/
def compute_multi_move_plan_constrained (df : List Rec) (maxRounds maxMoves : Nat) :
    List MoveRec × List Rec :=
  ((final_state df maxRounds maxMoves).1.moves, (final_state df maxRounds maxMoves).1.df)

/-- The value of the `rounds` counter when the loop exits. -/
def rounds_used (df : List Rec) (maxRounds maxMoves : Nat) : Nat :=
  (final_state df maxRounds maxMoves).2

/-- The multi-hop toggle dispatch (app.py:303-307, mirrored by the
`--multi-move` flag of line_balance_report.py:238-242): when disabled the
engine is not run at all, the move list is empty and the allocation is
returned unchanged. -/
def run_engine (enableMulti : Bool) (df : List Rec) (maxMoves : Nat) :
    List MoveRec × List Rec :=
  if enableMulti then compute_multi_move_plan_constrained df 200 maxMoves else ([], df)

/-! ### Order facts and properties of the sorting helpers -/

theorem strle_iff_le {a b : String} : strle a b ↔ a ≤ b := by
  rw [String.le_iff_toList_le, le_iff_lt_or_eq]
  unfold strle
  constructor
  · rintro (h | rfl)
    · exact Or.inl h
    · exact Or.inr rfl
  · rintro (h | h)
    · exact Or.inl h
    · exact Or.inr (String.toList_inj.mp h)

instance : IsTotal String strle :=
  ⟨fun a b => by
    rcases le_total a b with h | h
    · exact Or.inl (strle_iff_le.mpr h)
    · exact Or.inr (strle_iff_le.mpr h)⟩

instance : IsTrans String strle :=
  ⟨fun _ _ _ hab hbc =>
    strle_iff_le.mpr (le_trans (strle_iff_le.mp hab) (strle_iff_le.mp hbc))⟩

theorem strle_refl (a : String) : strle a a := Or.inr rfl

theorem strle_antisymm {a b : String} (h1 : strle a b) (h2 : strle b a) : a = b :=
  le_antisymm (strle_iff_le.mp h1) (strle_iff_le.mp h2)

theorem mem_sortedUnique {a : String} {l : List String} : a ∈ sortedUnique l ↔ a ∈ l := by
  rw [sortedUnique, List.mem_insertionSort, List.mem_dedup]

theorem sortedUnique_nodup (l : List String) : (sortedUnique l).Nodup :=
  (List.perm_insertionSort strle l.dedup).nodup_iff.mpr (List.nodup_dedup l)

theorem sortedUnique_sorted (l : List String) : (sortedUnique l).Sorted strle :=
  List.sorted_insertionSort strle l.dedup

theorem sortedUnique_pairwise (l : List String) :
    (sortedUnique l).Pairwise (fun a b => strle a b ∧ a ≠ b) :=
  (sortedUnique_sorted l).and (sortedUnique_nodup l)

theorem sections_pairwise (df : List Rec) (course line : String) :
    (get_course_sections_on_line df course line).Pairwise (fun a b => strle a b ∧ a ≠ b) :=
  sortedUnique_pairwise _

theorem sections_nodup (df : List Rec) (course line : String) :
    (get_course_sections_on_line df course line).Nodup :=
  sortedUnique_nodup _

/-- In a list whose entries are pairwise related by an asymmetric relation,
any two members related by the relation occur in that order, as a
two-element sublist. -/
theorem pair_sublist_of_pairwise {α : Type} {R : α → α → Prop}
    (hR : ∀ x y, R x y → R y x → False) :
    ∀ {l : List α}, l.Pairwise R → ∀ {a b : α}, a ∈ l → b ∈ l → R a b → [a, b] <+ l := by
  intro l
  induction l with
  | nil => intro _ a b ha; simp at ha
  | cons x t ih =>
    intro hl a b ha hb hab
    rw [List.pairwise_cons] at hl
    rcases List.mem_cons.mp ha with rfl | ha2
    · rcases List.mem_cons.mp hb with rfl | hb2
      · exact (hR _ _ hab hab).elim
      · exact List.Sublist.cons₂ _ (List.singleton_sublist.mpr hb2)
    · rcases List.mem_cons.mp hb with rfl | hb2
      · exact (hR _ _ hab (hl.1 a ha2)).elim
      · exact List.Sublist.cons _ (ih hl.2 ha2 hb2 hab)

theorem pick_eq (df : List Rec) (course line : String) :
    pick_destination_section df course line =
      if (get_course_sections_on_line df course line).isEmpty then none
      else ((get_course_sections_on_line df course line).insertionSort
        (cntLe (section_count df course line))).head? := rfl

/-- Concrete roster for the section-picking example: course M with
sections M-a (5 students) and M-b (3 students) on line L2. -/
def dfPick : List Rec :=
  [⟨"a1", "L2", "M", some "M-a"⟩, ⟨"a2", "L2", "M", some "M-a"⟩,
   ⟨"a3", "L2", "M", some "M-a"⟩, ⟨"a4", "L2", "M", some "M-a"⟩,
   ⟨"a5", "L2", "M", some "M-a"⟩, ⟨"b1", "L2", "M", some "M-b"⟩,
   ⟨"b2", "L2", "M", some "M-b"⟩, ⟨"b3", "L2", "M", some "M-b"⟩]

/-- C9: `pick_destination_section` returns `none` exactly when no section
of the course exists on the line; otherwise it returns a section of that
course on that line with the smallest current headcount, and among the
sections of equal smallest headcount the lexically smallest identifier;
with sections M-a (5 students) and M-b (3 students) on line L2 it picks
M-b. -/
theorem pick_destination_section_spec :
    (∀ (df : List Rec) (course line : String),
      (pick_destination_section df course line = none ↔
        get_course_sections_on_line df course line = []) ∧
      (∀ s, pick_destination_section df course line = some s →
        s ∈ get_course_sections_on_line df course line ∧
        (∀ t ∈ get_course_sections_on_line df course line,
          section_count df course line s ≤ section_count df course line t) ∧
        (∀ t ∈ get_course_sections_on_line df course line,
          section_count df course line t = section_count df course line s → strle s t))) ∧
    pick_destination_section dfPick "M" "L2" = some "M-b" := by
  constructor
  · intro df course line
    have hperm := List.perm_insertionSort (cntLe (section_count df course line))
      (get_course_sections_on_line df course line)
    have hsort := List.sorted_insertionSort (cntLe (section_count df course line))
      (get_course_sections_on_line df course line)
    constructor
    · rw [pick_eq]
      cases hsec : get_course_sections_on_line df course line with
      | nil => simp
      | cons x xs =>
        simp only [List.isEmpty_cons, Bool.false_eq_true, if_false]
        constructor
        · intro h
          rw [List.head?_eq_none_iff] at h
          have hlen := congrArg List.length h
          rw [List.length_insertionSort] at hlen
          simp at hlen
        · intro h
          exact absurd h (List.cons_ne_nil x xs)
    · intro s hs
      rw [pick_eq] at hs
      by_cases hemp : (get_course_sections_on_line df course line).isEmpty
      · rw [if_pos hemp] at hs; exact absurd hs (Option.noConfusion)
      · rw [if_neg hemp] at hs
        cases hsor : (get_course_sections_on_line df course line).insertionSort
            (cntLe (section_count df course line)) with
        | nil => rw [hsor] at hs; exact absurd hs (Option.noConfusion)
        | cons s0 rest =>
          rw [hsor] at hs
          have hs0 : s0 = s := by simpa using hs
          subst hs0
          rw [hsor] at hperm hsort
          have hmem : s0 ∈ get_course_sections_on_line df course line :=
            hperm.subset (List.mem_cons_self _ _)
          refine ⟨hmem, ?_, ?_⟩
          · intro t ht
            have : t ∈ s0 :: rest := hperm.symm.subset ht
            rcases List.mem_cons.mp this with rfl | ht2
            · exact le_refl _
            · exact List.rel_of_sorted_cons hsort t ht2
          · intro t ht htc
            by_contra hcon
            have hts : strle t s0 :=
              Or.resolve_left (IsTotal.total (r := strle) s0 t) hcon
            have hne : t ≠ s0 := by
              rintro rfl; exact hcon (strle_refl t)
            have hpair : [t, s0] <+ get_course_sections_on_line df course line :=
              pair_sublist_of_pairwise
                (fun x y h1 h2 => h1.2 (strle_antisymm h1.1 h2.1))
                (sections_pairwise df course line) ht hmem ⟨hts, hne⟩
            have hstab : [t, s0] <+ s0 :: rest := by
              rw [← hsor]
              exact List.pair_sublist_insertionSort (le_of_eq htc) hpair
            have hnd : (s0 :: rest).Nodup :=
              hperm.nodup_iff.mpr (sections_nodup df course line)
            have hs0rest : s0 ∉ rest := (List.nodup_cons.mp hnd).1
            cases hstab with
            | cons _ h => exact hs0rest (h.subset (by simp))
            | cons₂ _ h => exact hne rfl
  · decide

/-- Witness for the section-picking specification, at the concrete
example roster. -/
theorem pick_destination_section_spec_witness :
    "M-b" ∈ get_course_sections_on_line dfPick "M" "L2" ∧
      (∀ t ∈ get_course_sections_on_line dfPick "M" "L2",
        section_count dfPick "M" "L2" "M-b" ≤ section_count dfPick "M" "L2" t) :=
  ⟨((pick_destination_section_spec.1 dfPick "M" "L2").2 "M-b"
      pick_destination_section_spec.2).1,
   ((pick_destination_section_spec.1 dfPick "M" "L2").2 "M-b"
      pick_destination_section_spec.2).2.1⟩

/-! ### C6: the target calculator -/

/-- Counts {A:10, B:4} of the spec's first target example. -/
def currAB : String → Nat := fun ln => if ln = "A" then 10 else 4

/-- Counts {A:10, B:9, C:8} of the spec's second target example. -/
def currABC : String → Nat := fun ln => if ln = "A" then 10 else if ln = "B" then 9 else 8

/-- C6: with `total` the sum over the offering lines, `base = total / n`
and `remainder = total % n`, the target is `base + 1` exactly on the
first `remainder` lines of the ascending stable sort by current count
(a permutation of the offering lines, sorted by count, preserving the
original relative order of equal counts), and `base` on all others; for
counts {A:10, B:4} both targets are 7, and for {A:10, B:9, C:8} all
targets are 9. -/
theorem target_for_spec :
    (∀ (offered : List String) (curr : String → Nat), offered.Nodup → 2 ≤ offered.length →
      (lines_sorted_asc offered curr).Perm offered ∧
      (lines_sorted_asc offered curr).Sorted (cntLe curr) ∧
      (∀ a b, [a, b] <+ offered → curr a = curr b →
        [a, b] <+ lines_sorted_asc offered curr) ∧
      (∀ ln ∈ offered,
        (target_for offered curr ln = (offered.map curr).sum / offered.length + 1 ↔
          ln ∈ (lines_sorted_asc offered curr).take ((offered.map curr).sum % offered.length)) ∧
        (target_for offered curr ln = (offered.map curr).sum / offered.length ↔
          ln ∉ (lines_sorted_asc offered curr).take
            ((offered.map curr).sum % offered.length)))) ∧
    (target_for ["A", "B"] currAB "A" = 7 ∧ target_for ["A", "B"] currAB "B" = 7) ∧
    (target_for ["A", "B", "C"] currABC "A" = 9 ∧ target_for ["A", "B", "C"] currABC "B" = 9 ∧
      target_for ["A", "B", "C"] currABC "C" = 9) := by
  refine ⟨?_, by decide, by decide⟩
  intro offered curr _ _
  refine ⟨List.perm_insertionSort _ _, List.sorted_insertionSort _ _, ?_, ?_⟩
  · intro a b hab hc
    exact List.pair_sublist_insertionSort (le_of_eq hc) hab
  · intro ln _
    by_cases hm : ln ∈ (lines_sorted_asc offered curr).take ((offered.map curr).sum % offered.length)
    · constructor
      · constructor
        · intro _; exact hm
        · intro _
          simp only [target_for, hm, if_pos]
      · constructor
        · intro h
          exfalso
          simp only [target_for, if_pos hm] at h
          omega
        · intro h; exact absurd hm h
    · constructor
      · constructor
        · intro h
          exfalso
          simp only [target_for, if_neg hm] at h
          omega
        · intro h; exact absurd h hm
      · constructor
        · intro _; exact hm
        · intro _
          simp only [target_for, if_neg hm]

/-- Witness for the target specification at the concrete counts
{A:10, B:4}. -/
theorem target_for_spec_witness :
    (lines_sorted_asc ["A", "B"] currAB).Perm ["A", "B"] ∧
      target_for ["A", "B"] currAB "A" = 7 :=
  ⟨(target_for_spec.1 ["A", "B"] currAB (by decide) (by decide)).1,
   target_for_spec.2.1.1⟩

/-! ### C7: the chain planner -/

/-- Schedule of the spec's chain-planning example: student s holds
courseX on L1 and courseY on L2. -/
def schedEx7 : Sched := fun s l =>
  if s = "s" then (if l = "L1" then some "X" else if l = "L2" then some "Y" else none)
  else none

/-- Offering index of the chain-planning example: courseY is offered on
L2 and L3. -/
def offEx7 : String → List String := fun c => if c = "Y" then ["L2", "L3"] else []

/-- C7: with the destination line free for the student the planner
returns the direct single-step chain; otherwise, with `b` the student's
blocking course on the destination, if the scan of `b`'s offering lines
finds a first line that is not the destination and not occupied by the
student, the planner returns the two-step chain relocating `b` there
first; and the spec's concrete example produces
`[(courseY, L2, L3), (courseX, L1, L2)]`. -/
theorem plan_student_chain_spec :
    (∀ (student course fromLn toLn : String) (sched : Sched) (offerings : String → List String),
      (sched student toLn = none →
        plan_student_chain student course fromLn toLn sched offerings 2 =
          some [(course, fromLn, toLn)]) ∧
      (∀ b alt, sched student toLn = some b →
        (offerings b).find? (fun alt2 => decide (alt2 ≠ toLn ∧ sched student alt2 = none)) =
          some alt →
        plan_student_chain student course fromLn toLn sched offerings 2 =
          some [(b, toLn, alt), (course, fromLn, toLn)] ∧
        alt ∈ offerings b ∧ alt ≠ toLn ∧ sched student alt = none)) ∧
    plan_student_chain "s" "X" "L1" "L2" schedEx7 offEx7 2 =
      some [("Y", "L2", "L3"), ("X", "L1", "L2")] := by
  constructor
  · intro student course fromLn toLn sched offerings
    constructor
    · intro h
      simp [plan_student_chain, h]
    · intro b alt hb hfind
      have hp := List.find?_some hfind
      rw [decide_eq_true_iff] at hp
      refine ⟨?_, List.mem_of_find?_eq_some hfind, hp.1, hp.2⟩
      simp only [plan_student_chain, hb, hfind]
      rfl
  · decide

/-- Witness for the planner specification: a free destination yields the
direct chain at a concrete schedule. -/
theorem plan_student_chain_spec_witness :
    plan_student_chain "s" "X" "L1" "L3" schedEx7 offEx7 2 = some [("X", "L1", "L3")] :=
  (plan_student_chain_spec.1 "s" "X" "L1" "L3" schedEx7 offEx7).1 (by decide)

/-! ### Helper lemmas about the move executor and the planner -/

theorem valid_step_iff (df : List Rec) (sched : Sched) (student : String) (st : Step) :
    valid_step df sched student st = true ↔
      sched student st.2.1 = some st.1 ∧ sched student st.2.2 = none ∧
        (pick_destination_section df st.1 st.2.2).isSome := by
  obtain ⟨c, src, dst⟩ := st
  simp [valid_step, and_assoc]

theorem apply_chain_eq_none_iff (df : List Rec) (sched : Sched) (student : String)
    (chain : List Step) :
    apply_chain_section_aware df sched student chain = none ↔
      ∃ step ∈ chain, ¬(sched student step.2.1 = some step.1 ∧
        sched student step.2.2 = none ∧
        (pick_destination_section df step.1 step.2.2).isSome) := by
  have hiff : chain.all (valid_step df sched student) = true ↔
      ∀ step ∈ chain, sched student step.2.1 = some step.1 ∧ sched student step.2.2 = none ∧
        (pick_destination_section df step.1 step.2.2).isSome := by
    rw [List.all_eq_true]
    constructor
    · intro h step hs; exact (valid_step_iff df sched student step).mp (h step hs)
    · intro h step hs; exact (valid_step_iff df sched student step).mpr (h step hs)
  constructor
  · intro hnone
    by_contra hcon
    push_neg at hcon
    have hall : chain.all (valid_step df sched student) = true := hiff.mpr hcon
    rw [apply_chain_section_aware, if_pos hall] at hnone
    exact Option.noConfusion hnone
  · rintro ⟨step, hs, hbad⟩
    have hnall : ¬(chain.all (valid_step df sched student) = true) := fun hall =>
      hbad (hiff.mp hall step hs)
    rw [apply_chain_section_aware, if_neg hnall]

theorem apply_chain_eq_some_of_valid (df : List Rec) (sched : Sched) (student : String)
    (chain : List Step)
    (h : ∀ step ∈ chain, sched student step.2.1 = some step.1 ∧ sched student step.2.2 = none ∧
      (pick_destination_section df step.1 step.2.2).isSome) :
    apply_chain_section_aware df sched student chain =
      some (chain.foldl (apply_step student) (df, sched)) := by
  have hall : chain.all (valid_step df sched student) = true := by
    rw [List.all_eq_true]
    intro step hs
    exact (valid_step_iff df sched student step).mpr (h step hs)
  rw [apply_chain_section_aware, if_pos hall]

/-- The two possible shapes of a planner result: a direct single step when
the destination is free, or a chain of at least two steps whose final
step is the originally requested move, when the destination is blocked. -/
theorem plan_chain_cases {student course fromLn toLn : String} {sched : Sched}
    {offerings : String → List String} {depth : Nat} {chain : List Step}
    (h : plan_student_chain student course fromLn toLn sched offerings depth = some chain) :
    (sched student toLn = none ∧ chain = [(course, fromLn, toLn)]) ∨
      ((∃ b, sched student toLn = some b) ∧
        ∃ pre, pre ≠ [] ∧ chain = pre ++ [(course, fromLn, toLn)]) := by
  rw [plan_student_chain] at h
  split at h
  · rename_i hb
    simp only [Option.some_inj] at h
    exact Or.inl ⟨hb, h.symm⟩
  · rename_i b hb
    right
    refine ⟨⟨b, hb⟩, ?_⟩
    split at h
    · exact absurd h (Option.noConfusion)
    · split at h
      · rename_i alt hfind
        simp only [Option.some_inj] at h
        exact ⟨[(b, toLn, alt)], by simp, h.symm⟩
      · split at h
        · obtain ⟨altLn, _, hf⟩ := List.exists_of_findSome?_eq_some h
          split at hf
          · exact absurd hf (Option.noConfusion)
          · split at hf
            · exact absurd hf (Option.noConfusion)
            · rename_i c2 hc2
              cases hf2 : (offerings c2).find?
                  (fun alt2 => decide (sched student alt2 = none ∧ alt2 ≠ altLn)) with
              | none => rw [hf2] at hf; exact absurd hf (Option.noConfusion)
              | some alt2 =>
                rw [hf2] at hf
                simp only [Option.map_some', Option.some_inj] at hf
                exact ⟨[(c2, altLn, alt2), (b, toLn, altLn)], by simp, hf.symm⟩
        · exact absurd h (Option.noConfusion)

/-- A chain containing a step whose destination line the student already
occupies is rejected by the executor. -/
theorem apply_chain_none_of_occupied {df : List Rec} {sched : Sched} {student : String}
    {chain : List Step} {step : Step} (hs : step ∈ chain)
    (hocc : sched student step.2.2 ≠ none) :
    apply_chain_section_aware df sched student chain = none :=
  (apply_chain_eq_none_iff df sched student chain).mpr
    ⟨step, hs, fun hx => hocc hx.2.1⟩

/-- Unfolding of a successful `try_student` call: a planner chain was
produced, every pre-apply guard passed, the executor succeeded, and the
new state records the chain's steps. -/
theorem try_student_some {offerings : String → List String} {maxMoves : Nat}
    {st st2 : LoopState} {course fromLn toLn student : String}
    (h : try_student offerings maxMoves st course fromLn toLn student = some st2) :
    ∃ chain, plan_student_chain student course fromLn toLn st.sched offerings 2 = some chain ∧
      apply_chain_section_aware st.df st.sched student chain = some (st2.df, st2.sched) ∧
      st2.moves = st.moves ++ chain.map (fun s => ⟨student, s.1, s.2.1, s.2.2⟩) := by
  rw [try_student] at h
  split at h
  · exact absurd h (Option.noConfusion)
  · split at h
    · exact absurd h (Option.noConfusion)
    · split at h
      · exact absurd h (Option.noConfusion)
      · rename_i chain hplan
        split at h
        · exact absurd h (Option.noConfusion)
        · split at h
          · exact absurd h (Option.noConfusion)
          · split at h
            · exact absurd h (Option.noConfusion)
            · rename_i df2 sched2 happly
              refine ⟨chain, hplan, ?_, ?_⟩
              · rw [happly]
                simp only [Option.some_inj] at h
                rw [← h]
              · simp only [Option.some_inj] at h
                rw [← h]

/-! ### C3 and C1: executor atomicity and rejection of blocked chains -/

/-- C3: the Move Executor validates every step of a proposed chain (the
student currently holds exactly that course on the step's source line;
the student holds no course on the step's destination line; a
destination section exists for the course on the destination line)
before performing any mutation; the call returns `none` — the embedding
of the source returning `False` before its apply loop has run, leaving
`long_df` and `sched` exactly as they were, with no partial application
of a prefix of the chain — precisely when some check on some step fails,
and applies the whole chain in order when every check passes. -/
theorem apply_chain_section_aware_atomic :
    ∀ (df : List Rec) (sched : Sched) (student : String) (chain : List Step),
      (apply_chain_section_aware df sched student chain = none ↔
        ∃ step ∈ chain, ¬(sched student step.2.1 = some step.1 ∧
          sched student step.2.2 = none ∧
          (pick_destination_section df step.1 step.2.2).isSome)) ∧
      ((∀ step ∈ chain, sched student step.2.1 = some step.1 ∧
          sched student step.2.2 = none ∧
          (pick_destination_section df step.1 step.2.2).isSome) →
        apply_chain_section_aware df sched student chain =
          some (chain.foldl (apply_step student) (df, sched))) :=
  fun df sched student chain =>
    ⟨apply_chain_eq_none_iff df sched student chain,
     apply_chain_eq_some_of_valid df sched student chain⟩

/-- Witness for the executor contract: a chain whose first step the
student does not hold is rejected. -/
theorem apply_chain_section_aware_atomic_witness :
    apply_chain_section_aware dfPick (fun _ _ => none) "a1" [("M", "L1", "L2")] = none :=
  (apply_chain_section_aware_atomic dfPick (fun _ _ => none) "a1" [("M", "L1", "L2")]).1.mpr
    ⟨("M", "L1", "L2"), by decide, by decide⟩

/-- C1: when the destination line is already occupied by the student,
every chain the planner can return has at least two steps and ends with
the requested step, and the executor — validating every step against the
pre-chain schedule snapshot — rejects every such chain without mutating
anything; consequently a successful commit inside the balancing loop is
always a single direct move whose destination line the student does not
occupy. -/
theorem blocked_destination_never_commits :
    (∀ (student course fromLn toLn : String) (sched : Sched)
        (offerings : String → List String) (chain : List Step),
      sched student toLn ≠ none →
      plan_student_chain student course fromLn toLn sched offerings 2 = some chain →
      2 ≤ chain.length ∧ chain.getLast? = some (course, fromLn, toLn) ∧
        ∀ df : List Rec, apply_chain_section_aware df sched student chain = none) ∧
    (∀ (offerings : String → List String) (maxMoves : Nat) (st st2 : LoopState)
        (course fromLn toLn student : String),
      try_student offerings maxMoves st course fromLn toLn student = some st2 →
      st.sched student toLn = none ∧
        st2.moves = st.moves ++ [⟨student, course, fromLn, toLn⟩]) := by
  have hpart1 : ∀ (student course fromLn toLn : String) (sched : Sched)
      (offerings : String → List String) (chain : List Step),
      sched student toLn ≠ none →
      plan_student_chain student course fromLn toLn sched offerings 2 = some chain →
      2 ≤ chain.length ∧ chain.getLast? = some (course, fromLn, toLn) ∧
        ∀ df : List Rec, apply_chain_section_aware df sched student chain = none := by
    intro student course fromLn toLn sched offerings chain hocc hplan
    rcases plan_chain_cases hplan with ⟨hfree, _⟩ | ⟨_, pre, hne, hch⟩
    · exact absurd hfree hocc
    · subst hch
      refine ⟨?_, List.getLast?_concat pre, ?_⟩
      · have h1 : 0 < pre.length := List.length_pos.mpr hne
        simp only [List.length_append, List.length_cons, List.length_nil]
        omega
      · intro df
        exact @apply_chain_none_of_occupied df sched student (pre ++ [(course, fromLn, toLn)])
          (course, fromLn, toLn) (by simp) hocc
  constructor
  · exact hpart1
  · intro offerings maxMoves st st2 course fromLn toLn student h
    obtain ⟨chain, hplan, happly, hmoves⟩ := try_student_some h
    by_cases hocc : st.sched student toLn = none
    · rcases plan_chain_cases hplan with ⟨_, hch⟩ | ⟨⟨b, hbb⟩, _⟩
      · subst hch
        exact ⟨hocc, by simpa using hmoves⟩
      · rw [hocc] at hbb
        exact absurd hbb (Option.noConfusion)
    · exfalso
      have hn := (hpart1 student course fromLn toLn st.sched offerings chain hocc hplan).2.2 st.df
      rw [hn] at happly
      exact Option.noConfusion happly

/-- Witness for the blocked-destination theorem: the spec's example
two-step chain is rejected by the executor at a concrete record set. -/
theorem blocked_destination_never_commits_witness :
    apply_chain_section_aware dfPick schedEx7 "s" [("Y", "L2", "L3"), ("X", "L1", "L2")] = none :=
  (blocked_destination_never_commits.1 "s" "X" "L1" "L2" schedEx7 offEx7
    [("Y", "L2", "L3"), ("X", "L1", "L2")] (by decide) (by decide)).2.2 dfPick

/-! ### C10: bounded rounds; C2 and C8: toggle and idempotence -/

theorem loop_aux_bound (offerings : String → List String) (maxMoves : Nat) :
    ∀ (fuel r0 : Nat) (st : LoopState),
      (loop_aux offerings maxMoves fuel r0 st).2 ≤ r0 + fuel ∧
      ((loop_aux offerings maxMoves fuel r0 st).2 < r0 + fuel →
        pass_once offerings maxMoves (loop_aux offerings maxMoves fuel r0 st).1 = none) := by
  intro fuel
  induction fuel with
  | zero =>
    intro r0 st
    constructor
    · exact le_refl _
    · intro h; exact absurd h (lt_irrefl _)
  | succ n ih =>
    intro r0 st
    rw [loop_aux]
    cases hp : pass_once offerings maxMoves st with
    | none =>
      constructor
      · show r0 + 1 ≤ r0 + (n + 1)
        omega
      · intro _
        exact hp
    | some st2 =>
      obtain ⟨h21, h22⟩ := ih (r0 + 1) st2
      constructor
      · show (loop_aux offerings maxMoves n (r0 + 1) st2).2 ≤ r0 + (n + 1)
        omega
      · show (loop_aux offerings maxMoves n (r0 + 1) st2).2 < r0 + (n + 1) →
          pass_once offerings maxMoves (loop_aux offerings maxMoves n (r0 + 1) st2).1 = none
        intro h
        exact h22 (by omega)

/-- Balanced two-line roster: one course with one student on each line. -/
def dfBal : List Rec := [⟨"u1", "L1", "C", some "C-1"⟩, ⟨"u2", "L2", "C", some "C-2"⟩]

/-- C10: the balancing loop always terminates (it is a total function of
the fuel `maxRounds`), executes at most `maxRounds` rounds, and when it
stops below the round cap the final pass commits nothing. -/
theorem compute_terminates_within_rounds :
    ∀ (df : List Rec) (maxRounds maxMoves : Nat),
      rounds_used df maxRounds maxMoves ≤ maxRounds ∧
      (rounds_used df maxRounds maxMoves < maxRounds →
        pass_once (fun c => offering_lines df c) maxMoves
          (final_state df maxRounds maxMoves).1 = none) := by
  intro df maxRounds maxMoves
  have h := loop_aux_bound (fun c => offering_lines df c) maxMoves maxRounds 0
    { df := df, sched := build_student_schedule df, moves := [], movedSC := [],
      moveCounts := fun _ => 0 }
  rw [rounds_used, final_state]
  simpa using h

/-- Witness for the round bound: on the balanced roster the loop stops
after one committing-nothing pass, below the cap. -/
theorem compute_terminates_within_rounds_witness :
    pass_once (fun c => offering_lines dfBal c) 3 (final_state dfBal 100 3).1 = none :=
  (compute_terminates_within_rounds dfBal 100 3).2 (by decide)

/-- Roster with a free-destination direct move available: course C has 3
students on L1 and 1 on L2, and all four students are distinct. -/
def dfToggle : List Rec :=
  [⟨"t1", "L1", "C", some "C-1"⟩, ⟨"t2", "L1", "C", some "C-1"⟩,
   ⟨"t3", "L1", "C", some "C-1"⟩, ⟨"t4", "L2", "C", some "C-2"⟩]

/-- C2 counterexample: with the multi-hop toggle disabled the engine
returns an empty move list and the unchanged allocation even though an
imbalance with a free-destination direct move exists (the enabled engine
commits moves on the same roster). -/
theorem toggle_off_skips_balancing_cex :
    run_engine false dfToggle 3 = ([], dfToggle) ∧ (run_engine true dfToggle 3).1 ≠ [] := by
  constructor
  · rfl
  · decide

/-- C2 amended: when the multi-hop planning toggle is disabled the engine
is not run at all: for every roster and per-student budget the result is
an empty move list and the unchanged allocation (no balancing rounds, no
direct moves). -/
theorem toggle_off_returns_unchanged :
    ∀ (df : List Rec) (maxMoves : Nat), run_engine false df maxMoves = ([], df) :=
  fun _ _ => rfl

/-- Spread-1 roster: course C with per-line counts L1:1, L2:1, L3:2. -/
def dfSpread : List Rec :=
  [⟨"s1", "L1", "C", some "C-1"⟩, ⟨"s2", "L2", "C", some "C-2"⟩,
   ⟨"s3", "L3", "C", some "C-3"⟩, ⟨"s4", "L3", "C", some "C-3"⟩]

/-- C8 counterexample: an allocation in which the only course's spread of
nonzero per-line headcounts is 1 (counts 1, 1, 2), yet a full run of the
engine still produces moves. -/
theorem balanced_spread_still_moves_cex :
    offering_lines dfSpread "C" = ["L1", "L2", "L3"] ∧
    line_count dfSpread "C" "L1" = 1 ∧ line_count dfSpread "C" "L2" = 1 ∧
    line_count dfSpread "C" "L3" = 2 ∧
    (compute_multi_move_plan_constrained dfSpread 100 3).1 ≠ [] :=
  ⟨by decide, by decide, by decide, by decide, by decide⟩

/-- A pass commits nothing when every course is already at its computed
targets (no surplus line or no deficit line). -/
theorem pass_once_eq_none {offerings : String → List String} {maxMoves : Nat} {st : LoopState}
    (h : ∀ course ∈ courses_of st.df,
      (offering_lines st.df course).length < 2 ∨
      (offering_lines st.df course).filter (fun ln =>
        decide (target_for (offering_lines st.df course)
          (fun l2 => line_count st.df course l2) ln < line_count st.df course ln)) = [] ∨
      (offering_lines st.df course).filter (fun ln =>
        decide (line_count st.df course ln < target_for (offering_lines st.df course)
          (fun l2 => line_count st.df course l2) ln)) = []) :
    pass_once offerings maxMoves st = none := by
  rw [pass_once, List.findSome?_eq_none_iff]
  intro course hc
  by_cases hl : (offering_lines st.df course).length < 2
  · simp only [if_pos hl]
  · rcases h course hc with hlen | hsur | hdef
    · exact absurd hlen hl
    · simp only [if_neg hl]
      rw [if_pos]
      simp [hsur]
    · simp only [if_neg hl]
      rw [if_pos]
      simp [hdef]

/-- C8 amended: running the engine on an allocation in which every course
either has fewer than two offering lines or already matches the computed
per-line targets (no surplus line or no deficit line) produces an empty
move list; the spread-1 example shows plain spread ≤ 1 is not enough. -/
theorem no_moves_when_counts_meet_targets :
    ∀ (df : List Rec) (maxRounds maxMoves : Nat),
      (∀ course ∈ courses_of df,
        (offering_lines df course).length < 2 ∨
        (offering_lines df course).filter (fun ln =>
          decide (target_for (offering_lines df course)
            (fun l2 => line_count df course l2) ln < line_count df course ln)) = [] ∨
        (offering_lines df course).filter (fun ln =>
          decide (line_count df course ln < target_for (offering_lines df course)
            (fun l2 => line_count df course l2) ln)) = []) →
      (compute_multi_move_plan_constrained df maxRounds maxMoves).1 = [] := by
  intro df maxRounds maxMoves h
  have hp : pass_once (fun c => offering_lines df c) maxMoves
      { df := df, sched := build_student_schedule df, moves := [], movedSC := [],
        moveCounts := fun _ => 0 } = none := pass_once_eq_none h
  rw [compute_multi_move_plan_constrained, final_state]
  cases maxRounds with
  | zero => rfl
  | succ n =>
    rw [loop_aux, hp]

/-- Witness: the balanced two-line roster yields zero moves. -/
theorem no_moves_when_counts_meet_targets_witness :
    (compute_multi_move_plan_constrained dfBal 100 3).1 = [] :=
  no_moves_when_counts_meet_targets dfBal 100 3 (by decide)

/-! ### C4: conservation of enrollment -/

theorem apply_step_proj (student : String) (p : List Rec × Sched) (step : Step) :
    ((apply_step student p step).1).map (fun r => (r.code, r.course)) =
      (p.1).map (fun r => (r.code, r.course)) := by
  obtain ⟨df, sched⟩ := p
  obtain ⟨c, src, dst⟩ := step
  simp only [apply_step, List.map_map]
  apply List.map_congr_left
  intro r _
  by_cases hm : r.code = student ∧ r.course = c ∧ r.line = src
  · simp [Function.comp, hm]
  · simp [Function.comp, hm]

theorem foldl_apply_proj (student : String) :
    ∀ (chain : List Step) (p : List Rec × Sched),
      ((chain.foldl (apply_step student) p).1).map (fun r => (r.code, r.course)) =
        (p.1).map (fun r => (r.code, r.course)) := by
  intro chain
  induction chain with
  | nil => intro p; rfl
  | cons s t ih =>
    intro p
    rw [List.foldl_cons, ih, apply_step_proj]

theorem apply_chain_proj {df : List Rec} {sched : Sched} {student : String} {chain : List Step}
    {df2 : List Rec} {sched2 : Sched}
    (h : apply_chain_section_aware df sched student chain = some (df2, sched2)) :
    df2.map (fun r => (r.code, r.course)) = df.map (fun r => (r.code, r.course)) := by
  rw [apply_chain_section_aware] at h
  split at h
  · simp only [Option.some_inj] at h
    have hf := foldl_apply_proj student chain (df, sched)
    rw [h] at hf
    exact hf
  · exact absurd h (Option.noConfusion)

/-- Unfolding of a successful pass: some candidate student of some
course's surplus line committed. -/
theorem pass_once_some {offerings : String → List String} {maxMoves : Nat} {st st2 : LoopState}
    (h : pass_once offerings maxMoves st = some st2) :
    ∃ course fromLn toLn student,
      try_student offerings maxMoves st course fromLn toLn student = some st2 := by
  simp only [pass_once] at h
  obtain ⟨course, _, hc⟩ := List.exists_of_findSome?_eq_some h
  split at hc
  · exact absurd hc (Option.noConfusion)
  · split at hc
    · exact absurd hc (Option.noConfusion)
    · obtain ⟨toLn, _, ht⟩ := List.exists_of_findSome?_eq_some hc
      split at ht
      · obtain ⟨fromLn, _, hf⟩ := List.exists_of_findSome?_eq_some ht
        split at hf
        · obtain ⟨student, _, hs⟩ := List.exists_of_findSome?_eq_some hf
          exact ⟨course, fromLn, toLn, student, hs⟩
        · exact absurd hf (Option.noConfusion)
      · exact absurd ht (Option.noConfusion)

theorem pass_once_proj {offerings : String → List String} {maxMoves : Nat} {st st2 : LoopState}
    (h : pass_once offerings maxMoves st = some st2) :
    st2.df.map (fun r => (r.code, r.course)) = st.df.map (fun r => (r.code, r.course)) := by
  obtain ⟨course, fromLn, toLn, student, hts⟩ := pass_once_some h
  obtain ⟨chain, _, happly, _⟩ := try_student_some hts
  exact apply_chain_proj happly

theorem loop_aux_proj (offerings : String → List String) (maxMoves : Nat) :
    ∀ (fuel r0 : Nat) (st : LoopState),
      ((loop_aux offerings maxMoves fuel r0 st).1.df).map (fun r => (r.code, r.course)) =
        st.df.map (fun r => (r.code, r.course)) := by
  intro fuel
  induction fuel with
  | zero => intro r0 st; rfl
  | succ n ih =>
    intro r0 st
    rw [loop_aux]
    cases hp : pass_once offerings maxMoves st with
    | none => rfl
    | some st2 =>
      show ((loop_aux offerings maxMoves n (r0 + 1) st2).1.df).map _ = _
      rw [ih]
      exact pass_once_proj hp

theorem length_filter_split {α : Type} (p : α → Bool) (l : List α) :
    l.length = (l.filter p).length + (l.filter (fun a => !p a)).length := by
  induction l with
  | nil => rfl
  | cons x t ih =>
    cases hpx : p x with
    | true => simp [List.filter_cons, hpx, ih]; omega
    | false => simp [List.filter_cons, hpx, ih]; omega

theorem line_count_partition (df : List Rec) (course ln : String) :
    line_count df course ln =
      ((df.filter (fun r => decide (r.course = course))).filter
        (fun r => decide (r.line = ln))).length := by
  rw [line_count, ← List.countP_eq_length_filter, ← List.countP_eq_length_filter,
    List.countP_filter]
  apply List.countP_congr
  intro r _
  simp only [Bool.and_eq_true, decide_eq_true_iff]
  exact ⟨fun hx => ⟨hx.2, hx.1⟩, fun hx => ⟨hx.2, hx.1⟩⟩

theorem sum_line_counts :
    ∀ (lines : List String) (l : List Rec), lines.Nodup → (∀ r ∈ l, r.line ∈ lines) →
      (lines.map (fun ln => (l.filter (fun r => decide (r.line = ln))).length)).sum =
        l.length := by
  intro lines
  induction lines with
  | nil =>
    intro l _ hall
    cases l with
    | nil => rfl
    | cons r t => exact absurd (hall r (List.mem_cons_self r t)) (List.not_mem_nil r.line)
  | cons ln rest ih =>
    intro l hnd hall
    rw [List.nodup_cons] at hnd
    rw [List.map_cons, List.sum_cons]
    have hmap : ∀ ln2 ∈ rest, (l.filter (fun r => decide (r.line = ln2))).length =
        ((l.filter (fun r => !decide (r.line = ln))).filter
          (fun r => decide (r.line = ln2))).length := by
      intro ln2 h2
      rw [← List.countP_eq_length_filter, ← List.countP_eq_length_filter, List.countP_filter]
      apply List.countP_congr
      intro r _
      simp only [Bool.and_eq_true, Bool.not_eq_true', decide_eq_true_iff,
        decide_eq_false_iff_not]
      constructor
      · intro hr
        refine ⟨hr, fun heq => hnd.1 ?_⟩
        have hln : ln = ln2 := by rw [← heq, hr]
        rw [hln]
        exact h2
      · rintro ⟨hr, _⟩; exact hr
    have hcomplete : ∀ r ∈ l.filter (fun r => !decide (r.line = ln)), r.line ∈ rest := by
      intro r hr
      rw [List.mem_filter] at hr
      rcases List.mem_cons.mp (hall r hr.1) with heq | h2
      · exfalso
        have := hr.2
        rw [heq] at this
        simp at this
      · exact h2
    rw [List.map_congr_left hmap, ih _ hnd.2 hcomplete]
    exact (length_filter_split (fun r => decide (r.line = ln)) l).symm

theorem course_line_sum_eq (df : List Rec) (course : String) :
    ((offering_lines df course).map (fun ln => line_count df course ln)).sum =
      (df.filter (fun r => decide (r.course = course))).length := by
  have hcomp : ∀ r ∈ df.filter (fun r => decide (r.course = course)),
      r.line ∈ offering_lines df course := by
    intro r hr
    rw [offering_lines, mem_sortedUnique]
    exact List.mem_map.mpr ⟨r, hr, rfl⟩
  have hs := sum_line_counts (offering_lines df course)
    (df.filter (fun r => decide (r.course = course))) (sortedUnique_nodup _) hcomp
  rw [← hs]
  apply congrArg
  apply List.map_congr_left
  intro ln _
  exact line_count_partition df course ln

theorem course_total_of_proj {df1 df2 : List Rec}
    (h : df1.map (fun r => (r.code, r.course)) = df2.map (fun r => (r.code, r.course)))
    (course : String) :
    (df1.filter (fun r => decide (r.course = course))).length =
      (df2.filter (fun r => decide (r.course = course))).length := by
  rw [← List.countP_eq_length_filter, ← List.countP_eq_length_filter]
  have hc := congrArg (List.countP (fun p : String × String => decide (p.2 = course))) h
  rw [List.countP_map, List.countP_map] at hc
  exact hc

/-- C4: for every roster, configuration and course, the sum of the
per-line headcounts of the course over its offering lines is the same
before and after a full run — committed moves rewrite only the Line and
Class of existing records, never creating or deleting enrollment. -/
theorem course_enrollment_conserved :
    ∀ (df : List Rec) (maxRounds maxMoves : Nat) (course : String),
      ((offering_lines (compute_multi_move_plan_constrained df maxRounds maxMoves).2 course).map
        (fun ln => line_count (compute_multi_move_plan_constrained df maxRounds maxMoves).2
          course ln)).sum =
      ((offering_lines df course).map (fun ln => line_count df course ln)).sum := by
  intro df maxRounds maxMoves course
  rw [course_line_sum_eq, course_line_sum_eq]
  apply course_total_of_proj
  exact loop_aux_proj (fun c => offering_lines df c) maxMoves maxRounds 0
    { df := df, sched := build_student_schedule df, moves := [], movedSC := [],
      moveCounts := fun _ => 0 }

/-! ### C5: per-line uniqueness and schedule-map consistency -/

/-- Each student has at most one assignment record per line. -/
def uniq_lines (df : List Rec) : Prop :=
  ∀ (s l : String), (df.filter (fun r => decide (r.code = s ∧ r.line = l))).length ≤ 1

/-- The schedule map agrees with the record set: where the map is empty
the student has no record on the line, and where it holds a course the
student has exactly one record there, bearing that course. -/
def sched_consistent (df : List Rec) (sched : Sched) : Prop :=
  ∀ (s l : String),
    (sched s l = none → df.filter (fun r => decide (r.code = s ∧ r.line = l)) = []) ∧
    (∀ c, sched s l = some c →
      (df.filter (fun r => decide (r.code = s ∧ r.line = l))).map (fun r => r.course) = [c])

theorem uniq_lines_of_pairwise {df : List Rec}
    (h : df.Pairwise (fun a b => ¬(a.code = b.code ∧ a.line = b.line))) :
    uniq_lines df := by
  intro s l
  have hp := h.filter (fun r => decide (r.code = s ∧ r.line = l))
  cases hfl : df.filter (fun r => decide (r.code = s ∧ r.line = l)) with
  | nil => simp
  | cons a rest =>
    cases rest with
    | nil => simp
    | cons b rest2 =>
      exfalso
      rw [hfl, List.pairwise_cons] at hp
      have hab := hp.1 b (List.mem_cons_self b rest2)
      have ha : a ∈ df.filter (fun r => decide (r.code = s ∧ r.line = l)) := by
        rw [hfl]; simp
      have hb : b ∈ df.filter (fun r => decide (r.code = s ∧ r.line = l)) := by
        rw [hfl]; simp
      rw [List.mem_filter, decide_eq_true_iff] at ha hb
      exact hab ⟨ha.2.1.trans hb.2.1.symm, ha.2.2.trans hb.2.2.symm⟩

theorem uniq_of_consistent {df : List Rec} {sched : Sched} (h : sched_consistent df sched) :
    uniq_lines df := by
  intro s l
  rcases hsl : sched s l with _ | c
  · rw [(h s l).1 hsl]
    simp
  · have hm := (h s l).2 c hsl
    have hlen := congrArg List.length hm
    rw [List.length_map] at hlen
    simp only [List.length_cons, List.length_nil] at hlen
    omega

theorem foldl_sched_eq :
    ∀ (df : List Rec) (acc : Sched) (s l : String),
      (df.filter (fun r => decide (r.code = s ∧ r.line = l)) = [] →
        (df.foldl (fun sched r => fun s2 l2 =>
          if s2 = r.code ∧ l2 = r.line then some r.course else sched s2 l2) acc) s l =
          acc s l) ∧
      (∀ r0, df.filter (fun r => decide (r.code = s ∧ r.line = l)) = [r0] →
        (df.foldl (fun sched r => fun s2 l2 =>
          if s2 = r.code ∧ l2 = r.line then some r.course else sched s2 l2) acc) s l =
          some r0.course) := by
  intro df
  induction df with
  | nil =>
    intro acc s l
    exact ⟨fun _ => rfl, fun r0 h => absurd h (by simp)⟩
  | cons r t ih =>
    intro acc s l
    rw [List.foldl_cons]
    by_cases hm : r.code = s ∧ r.line = l
    · rw [List.filter_cons_of_pos (by simpa using hm)]
      constructor
      · intro h
        exact absurd h (by simp)
      · intro r0 h
        have h2 := h
        rw [show ([r0] : List Rec) = r0 :: [] from rfl] at h2
        injection h2 with h3 h4
        rw [(ih _ s l).1 h4]
        show (if s = r.code ∧ l = r.line then some r.course else acc s l) = some r0.course
        rw [if_pos ⟨hm.1.symm, hm.2.symm⟩, h3]
    · rw [List.filter_cons_of_neg (by simpa using hm)]
      constructor
      · intro h
        rw [(ih _ s l).1 h]
        show (if s = r.code ∧ l = r.line then some r.course else acc s l) = acc s l
        exact if_neg (fun hx => hm ⟨hx.1.symm, hx.2.symm⟩)
      · intro r0 h
        exact (ih _ s l).2 r0 h

theorem build_sched_consistent {df : List Rec} (h : uniq_lines df) :
    sched_consistent df (build_student_schedule df) := by
  intro s l
  have hf := foldl_sched_eq df (fun _ _ => none) s l
  have hu := h s l
  cases hfl : df.filter (fun r => decide (r.code = s ∧ r.line = l)) with
  | nil =>
    constructor
    · intro _
      rfl
    · intro c hc
      rw [build_student_schedule, hf.1 hfl] at hc
      exact absurd hc (Option.noConfusion)
  | cons r0 rest =>
    have hrest : rest = [] := by
      rw [hfl] at hu
      cases rest with
      | nil => rfl
      | cons a b => simp at hu
    subst hrest
    constructor
    · intro hn
      rw [build_student_schedule, hf.2 r0 hfl] at hn
      exact absurd hn (Option.noConfusion)
    · intro c hc
      rw [build_student_schedule, hf.2 r0 hfl] at hc
      simp only [Option.some_inj] at hc
      simp [hc]

theorem filter_eq_singleton_of_sub {α : Type} {p q : α → Bool} :
    ∀ {l : List α} {a : α}, (∀ x ∈ l, q x = true → p x = true) → l.filter p = [a] →
      q a = true → l.filter q = [a] := by
  intro l
  induction l with
  | nil => intro a _ hp _; exact absurd hp (by simp)
  | cons x t ih =>
    intro a hsub hp hqa
    rw [List.filter_cons] at hp ⊢
    by_cases hpx : p x = true
    · rw [if_pos hpx] at hp
      injection hp with h1 h2
      subst h1
      rw [if_pos hqa]
      congr 1
      rw [List.filter_eq_nil_iff] at h2 ⊢
      intro u hu hqu
      exact h2 u hu (hsub u (List.mem_cons_of_mem x hu) hqu)
    · rw [if_neg hpx] at hp
      have hqx : ¬(q x = true) := fun hq => hpx (hsub x (List.mem_cons_self x t) hq)
      rw [if_neg hqx]
      exact ih (fun u hu => hsub u (List.mem_cons_of_mem x hu)) hp hqa

/-- Applying one validated direct move preserves schedule-map
consistency (and hence per-line uniqueness): stated over the explicit
record-map and schedule-update performed by `apply_step`. -/
theorem map_upd_consistent {df : List Rec} {sched : Sched} {student c fromLn toLn : String}
    (dest : Option String)
    (hinv : sched_consistent df sched)
    (hsrc : sched student fromLn = some c) (hdst : sched student toLn = none) :
    sched_consistent
      (df.map (fun r => if r.code = student ∧ r.course = c ∧ r.line = fromLn then
        { r with line := toLn, cls := dest } else r))
      (fun s l => if s = student then
        (if l = toLn then some c else if l = fromLn then none else sched s l)
        else sched s l) := by
  have hne : fromLn ≠ toLn := by
    intro he
    rw [he, hdst] at hsrc
    exact Option.noConfusion hsrc
  have hfrom := (hinv student fromLn).2 c hsrc
  have hto := (hinv student toLn).1 hdst
  obtain ⟨r0, hr0f, hr0c⟩ : ∃ r0,
      df.filter (fun r => decide (r.code = student ∧ r.line = fromLn)) = [r0] ∧
        r0.course = c := by
    cases hfl : df.filter (fun r => decide (r.code = student ∧ r.line = fromLn)) with
    | nil => rw [hfl] at hfrom; exact absurd hfrom (by simp)
    | cons a rest =>
      rw [hfl] at hfrom
      cases rest with
      | nil =>
        simp only [List.map_cons, List.map_nil, List.cons.injEq, and_true] at hfrom
        exact ⟨a, rfl, hfrom⟩
      | cons b r2 => simp at hfrom
  have hr0m : r0 ∈ df ∧ r0.code = student ∧ r0.line = fromLn := by
    have hx : r0 ∈ df.filter (fun r => decide (r.code = student ∧ r.line = fromLn)) := by
      rw [hr0f]; simp
    rw [List.mem_filter, decide_eq_true_iff] at hx
    exact ⟨hx.1, hx.2⟩
  have hmask : df.filter (fun r => decide (r.code = student ∧ r.course = c ∧ r.line = fromLn)) =
      [r0] := by
    have hsub : ∀ x ∈ df, decide (x.code = student ∧ x.course = c ∧ x.line = fromLn) = true →
        decide (x.code = student ∧ x.line = fromLn) = true := by
      intro x _ hq
      rw [decide_eq_true_iff] at hq ⊢
      exact ⟨hq.1, hq.2.2⟩
    have hqa : decide (r0.code = student ∧ r0.course = c ∧ r0.line = fromLn) = true := by
      rw [decide_eq_true_iff]
      exact ⟨hr0m.2.1, hr0c, hr0m.2.2⟩
    exact filter_eq_singleton_of_sub hsub hr0f hqa
  have hto_none : ∀ r ∈ df, ¬(r.code = student ∧ r.line = toLn) := by
    intro r hr hx
    have hrm : r ∈ df.filter (fun r => decide (r.code = student ∧ r.line = toLn)) := by
      rw [List.mem_filter, decide_eq_true_iff]
      exact ⟨hr, hx⟩
    rw [hto] at hrm
    exact absurd hrm (List.not_mem_nil r)
  set f : Rec → Rec := fun r =>
    if r.code = student ∧ r.course = c ∧ r.line = fromLn then
      { r with line := toLn, cls := dest } else r with hfdef
  have hfcourse : ∀ r, (f r).course = r.course := by
    intro r
    rw [hfdef]
    by_cases hm2 : r.code = student ∧ r.course = c ∧ r.line = fromLn
    · simp [hm2]
    · simp [hm2]
  have hmapcourse : ∀ (l2 : List Rec),
      (l2.map f).map (fun r => r.course) = l2.map (fun r => r.course) := by
    intro l2
    rw [List.map_map]
    apply List.map_congr_left
    intro a _
    exact hfcourse a
  intro s l
  by_cases hs : s = student
  · subst hs
    by_cases hlt : l = toLn
    · subst hlt
      constructor
      · intro hn
        simp at hn
      · intro c2 hc2
        simp at hc2
        rw [List.filter_map]
        have hcong : df.filter ((fun r => decide (r.code = s ∧ r.line = l)) ∘ f) =
            df.filter (fun r => decide (r.code = s ∧ r.course = c ∧ r.line = fromLn)) := by
          apply List.filter_congr
          intro r hr
          by_cases hm2 : r.code = s ∧ r.course = c ∧ r.line = fromLn
          · simp only [Function.comp_apply, hfdef, if_pos hm2]
            simp [hm2]
          · simp only [Function.comp_apply, hfdef, if_neg hm2]
            simp [hm2, hto_none r hr]
        rw [hcong, hmask]
        simp [hfcourse, hr0c, hc2]
    · by_cases hlf : l = fromLn
      · constructor
        · intro _
          rw [List.filter_map]
          have hcong : df.filter ((fun r => decide (r.code = s ∧ r.line = l)) ∘ f) =
              df.filter (fun _ => false) := by
            apply List.filter_congr
            intro r hr
            by_cases hm2 : r.code = s ∧ r.course = c ∧ r.line = fromLn
            · simp only [Function.comp_apply, hfdef, if_pos hm2]
              have h1 : ¬(toLn = l) := fun hx => hlt hx.symm
              simp [h1]
            · simp only [Function.comp_apply, hfdef, if_neg hm2]
              by_cases hp : r.code = s ∧ r.line = l
              · exfalso
                have hrm : r ∈ df.filter (fun r => decide (r.code = s ∧ r.line = fromLn)) := by
                  rw [List.mem_filter, decide_eq_true_iff]
                  exact ⟨hr, hp.1, hlf ▸ hp.2⟩
                rw [hr0f] at hrm
                simp only [List.mem_singleton] at hrm
                subst hrm
                exact hm2 ⟨hp.1, hr0c, hlf ▸ hp.2⟩
              · simp [hp]
          rw [hcong]
          simp
        · intro c2 hc2
          simp [hlt, hlf] at hc2
          exact absurd hc2.1 hne
      · constructor
        · intro hn
          simp [hlt, hlf] at hn
          rw [List.filter_map]
          have hcong : df.filter ((fun r => decide (r.code = s ∧ r.line = l)) ∘ f) =
              df.filter (fun r => decide (r.code = s ∧ r.line = l)) := by
            apply List.filter_congr
            intro r hr
            by_cases hm2 : r.code = s ∧ r.course = c ∧ r.line = fromLn
            · simp only [Function.comp_apply, hfdef, if_pos hm2]
              have h1 : ¬(toLn = l) := fun hx => hlt hx.symm
              have h2 : ¬(r.line = l) := by
                rw [hm2.2.2]
                exact fun hx => hlf hx.symm
              simp [h1, h2]
            · simp only [Function.comp_apply, hfdef, if_neg hm2]
          rw [hcong, (hinv s l).1 hn]
          simp
        · intro c2 hc2
          simp [hlt, hlf] at hc2
          rw [List.filter_map]
          have hcong : df.filter ((fun r => decide (r.code = s ∧ r.line = l)) ∘ f) =
              df.filter (fun r => decide (r.code = s ∧ r.line = l)) := by
            apply List.filter_congr
            intro r hr
            by_cases hm2 : r.code = s ∧ r.course = c ∧ r.line = fromLn
            · simp only [Function.comp_apply, hfdef, if_pos hm2]
              have h1 : ¬(toLn = l) := fun hx => hlt hx.symm
              have h2 : ¬(r.line = l) := by
                rw [hm2.2.2]
                exact fun hx => hlf hx.symm
              simp [h1, h2]
            · simp only [Function.comp_apply, hfdef, if_neg hm2]
          rw [hcong, hmapcourse]
          exact (hinv s l).2 c2 hc2
  · constructor
    · intro hn
      simp [hs] at hn
      rw [List.filter_map]
      have hcong : df.filter ((fun r => decide (r.code = s ∧ r.line = l)) ∘ f) =
          df.filter (fun r => decide (r.code = s ∧ r.line = l)) := by
        apply List.filter_congr
        intro r hr
        by_cases hm2 : r.code = student ∧ r.course = c ∧ r.line = fromLn
        · simp only [Function.comp_apply, hfdef, if_pos hm2]
          have h1 : ¬(r.code = s) := fun hx => hs (hx.symm.trans hm2.1)
          simp [h1]
        · simp only [Function.comp_apply, hfdef, if_neg hm2]
      rw [hcong, (hinv s l).1 hn]
      simp
    · intro c2 hc2
      simp [hs] at hc2
      rw [List.filter_map]
      have hcong : df.filter ((fun r => decide (r.code = s ∧ r.line = l)) ∘ f) =
          df.filter (fun r => decide (r.code = s ∧ r.line = l)) := by
        apply List.filter_congr
        intro r hr
        by_cases hm2 : r.code = student ∧ r.course = c ∧ r.line = fromLn
        · simp only [Function.comp_apply, hfdef, if_pos hm2]
          have h1 : ¬(r.code = s) := fun hx => hs (hx.symm.trans hm2.1)
          simp [h1]
        · simp only [Function.comp_apply, hfdef, if_neg hm2]
      rw [hcong, hmapcourse]
      exact (hinv s l).2 c2 hc2

theorem apply_direct_consistent {df : List Rec} {sched : Sched} {student c fromLn toLn : String}
    {df2 : List Rec} {sched2 : Sched}
    (hinv : sched_consistent df sched)
    (happly : apply_chain_section_aware df sched student [(c, fromLn, toLn)] =
      some (df2, sched2)) :
    sched_consistent df2 sched2 := by
  rw [apply_chain_section_aware] at happly
  split at happly
  · rename_i hall
    have hv : valid_step df sched student (c, fromLn, toLn) = true := by
      simpa using hall
    rw [valid_step_iff] at hv
    obtain ⟨hsrc, hdst, _⟩ := hv
    simp only [Option.some_inj] at happly
    rw [List.foldl_cons, List.foldl_nil] at happly
    have hmu := map_upd_consistent (pick_destination_section df c toLn) hinv hsrc hdst
    have hdf : df2 = (apply_step student (df, sched) (c, fromLn, toLn)).1 := by rw [happly]
    have hsc : sched2 = (apply_step student (df, sched) (c, fromLn, toLn)).2 := by rw [happly]
    rw [hdf, hsc]
    exact hmu
  · exact absurd happly (Option.noConfusion)

theorem pass_once_consistent {offerings : String → List String} {maxMoves : Nat}
    {st st2 : LoopState} (hinv : sched_consistent st.df st.sched)
    (h : pass_once offerings maxMoves st = some st2) :
    sched_consistent st2.df st2.sched := by
  obtain ⟨course, fromLn, toLn, student, hts⟩ := pass_once_some h
  obtain ⟨chain, hplan, happly, _⟩ := try_student_some hts
  rcases plan_chain_cases hplan with ⟨hfree, hch⟩ | ⟨⟨b, hbb⟩, pre, hne, hch⟩
  · subst hch
    exact apply_direct_consistent hinv happly
  · exfalso
    subst hch
    have hnone := @apply_chain_none_of_occupied st.df st.sched student
      (pre ++ [(course, fromLn, toLn)]) (course, fromLn, toLn)
      (by simp) (by intro hx; rw [hbb] at hx; exact Option.noConfusion hx)
    rw [hnone] at happly
    exact Option.noConfusion happly

theorem loop_aux_consistent (offerings : String → List String) (maxMoves : Nat) :
    ∀ (fuel r0 : Nat) (st : LoopState), sched_consistent st.df st.sched →
      sched_consistent (loop_aux offerings maxMoves fuel r0 st).1.df
        (loop_aux offerings maxMoves fuel r0 st).1.sched := by
  intro fuel
  induction fuel with
  | zero => intro r0 st h; exact h
  | succ n ih =>
    intro r0 st h
    rw [loop_aux]
    cases hp : pass_once offerings maxMoves st with
    | none => exact h
    | some st2 =>
      show sched_consistent (loop_aux offerings maxMoves n (r0 + 1) st2).1.df
        (loop_aux offerings maxMoves n (r0 + 1) st2).1.sched
      exact ih (r0 + 1) st2 (pass_once_consistent h hp)

/-- C5: for every roster in which each student has at most one record per
line, the schedule map built from it is consistent with the record set,
every committed chain of a pass preserves that consistency, and at the
end of the run no student has two courses on the same line — the final
record set still satisfies per-line uniqueness and still agrees with the
final schedule map. -/
theorem per_line_uniqueness_preserved :
    ∀ (df : List Rec) (maxRounds maxMoves : Nat), uniq_lines df →
      (∀ (offerings : String → List String) (st st2 : LoopState),
        sched_consistent st.df st.sched →
        pass_once offerings maxMoves st = some st2 →
        sched_consistent st2.df st2.sched) ∧
      sched_consistent (final_state df maxRounds maxMoves).1.df
        (final_state df maxRounds maxMoves).1.sched ∧
      uniq_lines (compute_multi_move_plan_constrained df maxRounds maxMoves).2 := by
  intro df maxRounds maxMoves hu
  have hcons : sched_consistent df (build_student_schedule df) := build_sched_consistent hu
  have hfin : sched_consistent (final_state df maxRounds maxMoves).1.df
      (final_state df maxRounds maxMoves).1.sched := by
    rw [final_state]
    exact loop_aux_consistent _ maxMoves maxRounds 0 _ hcons
  exact ⟨fun offerings st st2 hi hp => pass_once_consistent hi hp, hfin,
    uniq_of_consistent hfin⟩

/-- Witness for the uniqueness theorem at a concrete four-student
roster. -/
theorem per_line_uniqueness_preserved_witness :
    uniq_lines (compute_multi_move_plan_constrained dfToggle 100 3).2 :=
  (per_line_uniqueness_preserved dfToggle 100 3
    (uniq_lines_of_pairwise (by decide))).2.2

end LineBalance
